/-
Verification of the trip-planner backend's route-corridor discovery engine.

The program under study is an Express backend with two endpoints:
GET /api/discover-stops (corridor sampling, places fan-out, dedup, ranking,
detour pricing, re-ranking) and POST /api/final-route (one optimized
multi-stop routing call).  This file gives a shallow embedding of its pure
computational core and proves or refutes the specification's claims about it.

Conventions of the embedding:
- JavaScript numbers that only ever hold rational values (coordinates,
  ratings, radii, scaled integers) are modelled as Rat or Int/Nat;
  transcendental computations (haversine, Math.log1p) are modelled over Real.
- Strings of UTF-16 code units are modelled as List Nat (the values returned
  by charCodeAt); an out-of-range read, which yields NaN in JavaScript, is
  modelled by the end of the list (NaN propagates to a zero chunk and a
  false continuation test, which is exactly how the decoder consumes it).
- Remote services (the places provider, the directions provider) are
  modelled as oracle parameters; a thrown exception is modelled as
  Except.error, and the top-level catch handler of each endpoint as a match
  on that Except.
-/
import Mathlib

/- ----------------------- Geometry utilities ----------------------- -/

/-- Coordinate pair as produced by the polyline decoder and consumed by the
engine; lat and lng in WGS84 degrees. -/
structure Coordinate where
  lat : ℚ
  lng : ℚ
deriving DecidableEq, Repr

/-- Degrees to radians, from the source's toRad. -/
noncomputable def toRad (d : ℝ) : ℝ := d * Real.pi / 180

/-- Great-circle distance from the source's haversineMeters: mean Earth
radius 6371e3 m, haversine formula. -/
noncomputable def haversineMeters (a b : Coordinate) : ℝ :=
  let R : ℝ := 6371000
  let dLat := toRad ((b.lat : ℝ) - (a.lat : ℝ))
  let dLng := toRad ((b.lng : ℝ) - (a.lng : ℝ))
  let lat1 := toRad (a.lat : ℝ)
  let lat2 := toRad (b.lat : ℝ)
  let h := Real.sin (dLat / 2) ^ 2 +
    Real.cos lat1 * Real.cos lat2 * Real.sin (dLng / 2) ^ 2
  2 * R * Real.arcsin (Real.sqrt h)

/-- Total polyline length: the sum of consecutive-vertex haversine distances,
as accumulated by the discover handler's totalM loop. -/
noncomputable def pathLength : List Coordinate → ℝ
  | [] => 0
  | [_] => 0
  | a :: b :: rest => haversineMeters a b + pathLength (b :: rest)

/-- Loop body of the source's samplePath: walk the remaining vertices
accumulating segment lengths from the previous vertex, emit a vertex and
reset the accumulator whenever it reaches everyMeters. -/
noncomputable def samplePathAux (everyMeters : ℝ) : Coordinate → List Coordinate → ℝ → List Coordinate
  | _, [], _ => []
  | prev, p :: rest, acc =>
    let acc2 := acc + haversineMeters prev p
    if everyMeters ≤ acc2 then p :: samplePathAux everyMeters p rest 0
    else samplePathAux everyMeters p rest acc2

/-- Source's samplePath: emitted points, or the single vertex at the floored
midpoint index when the loop emitted nothing.  (On an empty path the source
would read an out-of-range index; the claims only concern non-empty paths,
so the empty case is mapped to the empty list.) -/
noncomputable def samplePath (path : List Coordinate) (everyMeters : ℝ) : List Coordinate :=
  match path with
  | [] => []
  | p :: rest =>
    let out := samplePathAux everyMeters p rest 0
    if out.isEmpty then [(p :: rest).getD ((rest.length + 1) / 2) p] else out

/- ----------------------- Polyline decoding ----------------------- -/

/-- Sign decoding applied by decodePolyline to one finished 5-bit-group
value: interpret the accumulated 32-bit pattern as a signed integer
(JavaScript bitwise results are Int32), arithmetic-shift right by one, and
complement when the low bit is set. -/
def unzig (v : ℕ) : ℤ :=
  let s : ℤ := if v < 2 ^ 31 then (v : ℤ) else (v : ℤ) - 2 ^ 32
  let h := Int.fdiv s 2
  if v % 2 = 1 then -1 - h else h

/-- Character-by-character state machine of the source's decodePolyline.
shift and result are the in-progress group accumulator; pending holds a
decoded latitude delta while the longitude group is being read; lat and lng
are the running scaled-integer coordinates.  chunk is (charCode - 63) & 0x1f
and the continuation test b >= 0x20 is charCode >= 95.  When the input ends
mid-group, charCodeAt returns NaN, so the chunk is 0, the group terminates
with the bits read so far, and any missing longitude group decodes to 0;
the cases on the empty list reproduce exactly that. -/
def decodeAux : List ℕ → ℕ → ℕ → Option ℤ → ℤ → ℤ → List Coordinate
  | [], shift, result, none, lat, lng =>
    if shift = 0 then []
    else
      let dlat := unzig result
      [⟨((lat + dlat : ℤ) : ℚ) / 100000, ((lng : ℤ) : ℚ) / 100000⟩]
  | [], _, result, some dlat, lat, lng =>
    let dlng := unzig result
    [⟨((lat + dlat : ℤ) : ℚ) / 100000, ((lng + dlng : ℤ) : ℚ) / 100000⟩]
  | c :: rest, shift, result, pending, lat, lng =>
    let chunk := (((c : ℤ) - 63).emod 32).toNat
    let result2 := result ||| ((chunk * 2 ^ (shift % 32)) % 2 ^ 32)
    if 95 ≤ c then
      decodeAux rest (shift + 5) result2 pending lat lng
    else
      match pending with
      | none => decodeAux rest 0 0 (some (unzig result2)) lat lng
      | some dlat =>
        let dlng := unzig result2
        ⟨((lat + dlat : ℤ) : ℚ) / 100000, ((lng + dlng : ℤ) : ℚ) / 100000⟩ ::
          decodeAux rest 0 0 none (lat + dlat) (lng + dlng)

/-- Source's decodePolyline on a list of UTF-16 code units. -/
def decodePolyline (s : List ℕ) : List Coordinate := decodeAux s 0 0 none 0 0

/-- Modelled from the spec: zig-zag sign encoding of one scaled-integer
delta, the inverse of unzig used by the test-fixture encoder (which is not
part of the repository source).  d becomes 2d for non-negative d and the
bitwise complement of 2d, that is -(2d) - 1, for negative d. -/
def zigzag (d : ℤ) : ℕ := if 0 ≤ d then (2 * d).toNat else (-(2 * d) - 1).toNat

/-- Modelled from the spec: emit one zig-zag value as base-64-offset-63
characters in little-endian 5-bit groups, continuation bit 0x20 on every
group but the last. -/
def encodeVal (z : ℕ) : List ℕ :=
  if _h : z < 32 then [z + 63]
  else (95 + z % 32) :: encodeVal (z / 32)
termination_by z
decreasing_by exact Nat.div_lt_self (by omega) (by omega)

/-- Modelled from the spec: encode the point list as successive
latitude/longitude deltas from the previous point, starting at (0, 0).
Points are given as 1e5-scaled integers. -/
def encodeDeltas : ℤ → ℤ → List (ℤ × ℤ) → List ℕ
  | _, _, [] => []
  | prevLat, prevLng, p :: rest =>
    encodeVal (zigzag (p.1 - prevLat)) ++ encodeVal (zigzag (p.2 - prevLng)) ++
      encodeDeltas p.1 p.2 rest

/-- Modelled from the spec: full test-fixture polyline encoder. -/
def encodePath (pts : List (ℤ × ℤ)) : List ℕ := encodeDeltas 0 0 pts

/- ----------------------- Comparator sort model ----------------------- -/

/-- Stable insertion of a later element x into an already sorted prefix,
modelling the ECMAScript stable comparator sort: x is placed after every
earlier element y with cmp(y, x) <= 0. -/
def insertCmp {α β : Type} [LinearOrder β] [Zero β] (cmp : α → α → β) (x : α) :
    List α → List α
  | [] => [x]
  | y :: ys => if cmp y x ≤ 0 then y :: insertCmp cmp x ys else x :: y :: ys

/-- Stable comparator sort (ECMAScript Array.prototype.sort with a
numeric comparator). -/
def sortCmp {α β : Type} [LinearOrder β] [Zero β] (cmp : α → α → β) (l : List α) : List α :=
  l.foldl (fun acc y => insertCmp cmp y acc) []

/- ----------------------- Places adapters ----------------------- -/

/-- Raw place result as returned by the places provider before
normalization; optional fields may be missing. -/
structure RawPlace where
  place_id : ℕ
  rating : Option ℚ
  user_ratings_total : Option ℕ
  location : Option Coordinate
deriving DecidableEq

/-- Normalized candidate shape shared by both search adapters (missing
rating stays null, missing review count becomes 0); detourMinutes is
attached later by the engine and is null when the paired directions calls
fail. -/
structure Place where
  place_id : ℕ
  rating : Option ℚ
  user_ratings_total : ℕ
  location : Option Coordinate
  detourMinutes : Option ℤ := none
deriving DecidableEq

/-- Field mapping applied to every raw result by both adapters. -/
def normalizePlace (p : RawPlace) : Place :=
  { place_id := p.place_id
    rating := p.rating
    user_ratings_total := p.user_ratings_total.getD 0
    location := p.location
    detourMinutes := none }

/-- Provider wire response for one places query. -/
structure PlacesResp where
  status : String
  results : List RawPlace

/-- The remote places provider as an oracle from query parameters to a
response: nearbyRaw takes (point, type, radius), textRaw takes
(point, query, radius). -/
structure PlacesOracle where
  nearbyRaw : Coordinate → String → ℚ → PlacesResp
  textRaw : Coordinate → String → ℚ → PlacesResp

/-- Source's placesNearby: fetch, then throw unless the provider status is
falsy, OK, or ZERO_RESULTS; map the results to the normalized shape. -/
def placesNearby (o : PlacesOracle) (pt : Coordinate) (ty : String) (radius : ℚ) :
    Except Unit (List Place) :=
  let data := o.nearbyRaw pt ty radius
  if data.status ≠ "" ∧ data.status ≠ "OK" ∧ data.status ≠ "ZERO_RESULTS" then .error ()
  else .ok (data.results.map normalizePlace)

/-- Source's placesTextSearch, same status policy as placesNearby. -/
def placesTextSearch (o : PlacesOracle) (pt : Coordinate) (query : String) (radius : ℚ) :
    Except Unit (List Place) :=
  let data := o.textRaw pt query radius
  if data.status ≠ "" ∧ data.status ≠ "OK" ∧ data.status ≠ "ZERO_RESULTS" then .error ()
  else .ok (data.results.map normalizePlace)

/- ----------------------- Theme resolver ----------------------- -/

/-- Search strategy attached to a theme key. -/
inductive SearchCfg where
  | nearby (types : List String)
  | text (queries : List String)
deriving DecidableEq

/-- Source's THEME_MAP lookup table. -/
def THEME_MAP (t : String) : Option SearchCfg :=
  if t = "hikes" then some (.text ["trailhead", "hiking area", "scenic trail"])
  else if t = "waterfalls" then some (.text ["waterfall"])
  else if t = "lakes" then some (.text ["lake beach", "lakeside viewpoint"])
  else if t = "cafes" then some (.nearby ["cafe", "bakery"])
  else if t = "viewpoints" then some (.text ["scenic viewpoint", "lookout"])
  else if t = "parks" then some (.nearby ["park"])
  else if t = "food" then some (.nearby ["restaurant"])
  else if t = "museums" then some (.nearby ["museum"])
  else none

/- ----------------------- Discovery engine ----------------------- -/

/-- Per-(sample, theme) query loop: run the strategy's queries in declared
order, concatenating results and breaking once the running count reaches
perSampleCap. -/
def goQueries (f : String → Except Unit (List Place)) (cap : ℕ) :
    List String → List Place → Except Unit (List Place)
  | [], acc => .ok acc
  | k :: ks, acc =>
    match f k with
    | .error e => .error e
    | .ok r =>
      let acc2 := acc ++ r
      if cap ≤ acc2.length then .ok acc2 else goQueries f cap ks acc2

/-- Dispatch on the resolved strategy: nearby types at the base radius,
text queries at Math.round(radius * 1.5). -/
def runCfgQueries (o : PlacesOracle) (pt : Coordinate) (radius : ℚ) (perSampleCap : ℕ) :
    SearchCfg → Except Unit (List Place)
  | .nearby types => goQueries (fun ty => placesNearby o pt ty radius) perSampleCap types []
  | .text queries =>
    goQueries (fun q => placesTextSearch o pt q ((round (radius * 3 / 2) : ℤ) : ℚ))
      perSampleCap queries []

/-- Comparator of the quality ranking used before detour pricing: rating
descending (missing rating as 0), then review count descending; the
JavaScript short-circuit takes the review-count difference only when the
rating difference is 0. -/
def ratingCmp (a b : Place) : ℚ :=
  let r := b.rating.getD 0 - a.rating.getD 0
  if r ≠ 0 then r else ((b.user_ratings_total : ℚ) - (a.user_ratings_total : ℚ))

/-- Keep-loop body: insert one kept result into the theme's dedup map
unless it lacks a location or its place_id is already present (first seen
wins); the JavaScript Map preserves insertion order, modelled by appending. -/
def insertCand (m : List Place) (p : Place) : List Place :=
  if p.location.isSome ∧ (∀ q ∈ m, q.place_id ≠ p.place_id) then m ++ [p] else m

/-- Per-theme candidate maps of one discovery request, keyed by theme in
request order, each value in insertion order. -/
abbrev CandMap := List (String × List Place)

/-- Update the entry of one theme. -/
def updateTheme (cand : CandMap) (t : String) (f : List Place → List Place) : CandMap :=
  cand.map fun e => if e.1 = t then (e.1, f e.2) else e

/-- Body of the per-sample per-theme loop: resolve the theme (unknown keys
contribute nothing), run its queries, rank the concatenated results by
rating then review count, and merge the top perSampleCap into the theme's
dedup map. -/
def stepPtTheme (o : PlacesOracle) (radius : ℚ) (perSampleCap : ℕ) (pt : Coordinate)
    (cand : CandMap) (theme : String) : Except Unit CandMap :=
  match THEME_MAP theme with
  | none => .ok cand
  | some cfg =>
    match runCfgQueries o pt radius perSampleCap cfg with
    | .error e => .error e
    | .ok results =>
      let kept := (sortCmp ratingCmp results).take perSampleCap
      .ok (updateTheme cand theme (fun m => kept.foldl insertCand m))

/-- Inner loop over the theme list at one sample point. -/
def themesLoop (o : PlacesOracle) (radius : ℚ) (perSampleCap : ℕ) (pt : Coordinate) :
    List String → CandMap → Except Unit CandMap
  | [], cand => .ok cand
  | t :: ts, cand =>
    match stepPtTheme o radius perSampleCap pt cand t with
    | .error e => .error e
    | .ok cand2 => themesLoop o radius perSampleCap pt ts cand2

/-- Outer loop over the sample points. -/
def discoverLoop (o : PlacesOracle) (radius : ℚ) (perSampleCap : ℕ) (themes : List String) :
    List Coordinate → CandMap → Except Unit CandMap
  | [], cand => .ok cand
  | pt :: pts, cand =>
    match themesLoop o radius perSampleCap pt themes cand with
    | .error e => .error e
    | .ok cand2 => discoverLoop o radius perSampleCap themes pts cand2

/-- Pre-trim: order each theme's merged candidates by rating then review
count and keep the top perThemeCap (cost control before detour pricing). -/
def buildShortlists (cand : CandMap) (perThemeCap : ℕ) : CandMap :=
  cand.map fun e => (e.1, (sortCmp ratingCmp e.2).take perThemeCap)

/-- Math.log1p on a review count. -/
noncomputable def log1p (n : ℕ) : ℝ := Real.log (1 + (n : ℝ))

/-- Quality term of the re-rank score: (rating or 3) times log1p of the
review count; the JavaScript a.rating || 3 maps both a missing rating and
an explicit rating of 0 (falsy) to 3. -/
noncomputable def quality (p : Place) : ℝ :=
  (((match p.rating with
    | some r => if r = 0 then 3 else r
    | none => 3) : ℚ) : ℝ) * log1p p.user_ratings_total

/-- Detour penalty of the re-rank score: detour minutes, 0 when absent,
times the weight 0.5. -/
noncomputable def penalty (p : Place) : ℝ := ((p.detourMinutes.getD 0 : ℤ) : ℝ) * 0.5

/-- Composite re-rank score, quality minus penalty. -/
noncomputable def score (p : Place) : ℝ := quality p - penalty p

/-- Re-rank comparator of the source, literally (qb - pb) - (qa - pa). -/
noncomputable def rerankCmp (a b : Place) : ℝ := score b - score a

/-- Source's re-rank step for one theme list: comparator sort followed by
an in-place reverse. -/
noncomputable def rerankList (l : List Place) : List Place :=
  (sortCmp rerankCmp l).reverse

/-- Detour attachment: each shortlisted candidate receives the result of
its detour pricing (detourForPlace), which may be null. -/
def attachDetours (detourO : Place → Option ℤ) (sl : CandMap) : CandMap :=
  sl.map fun e => (e.1, e.2.map fun p => { p with detourMinutes := detourO p })

/-- Re-rank every theme's shortlist. -/
noncomputable def rerankAll (sl : CandMap) : CandMap :=
  sl.map fun e => (e.1, rerankList e.2)

/-- Discovery pipeline from the sampled corridor points on (steps 2 to 4 of
the handler): fan-out with dedup, pre-trim, detour pricing, re-rank.  The
geometry stage that produces the samples is modelled separately by
samplePath and everyMeters. -/
noncomputable def discoverFromSamples (o : PlacesOracle) (detourO : Place → Option ℤ)
    (samples : List Coordinate) (themes : List String) (radius : ℚ)
    (perSampleCap perThemeCap : ℕ) : Except Unit CandMap :=
  match discoverLoop o radius perSampleCap themes samples (themes.map fun t => (t, [])) with
  | .error e => .error e
  | .ok cand => .ok (rerankAll (attachDetours detourO (buildShortlists cand perThemeCap)))

/-- HTTP outcome of the discover endpoint: success with the per-theme
shortlists, or the generic 500 produced by the handler's catch block. -/
inductive DiscoverOutcome where
  | success (candidates : CandMap)
  | serverError
deriving DecidableEq

/-- Discover handler around the pipeline: an exception thrown by any places
query reaches the handler's catch block and becomes the generic 500. -/
noncomputable def discoverOutcome (o : PlacesOracle) (detourO : Place → Option ℤ)
    (samples : List Coordinate) (themes : List String) (radius : ℚ)
    (perSampleCap perThemeCap : ℕ) : DiscoverOutcome :=
  match discoverFromSamples o detourO samples themes radius perSampleCap perThemeCap with
  | .ok sl => .success sl
  | .error _ => .serverError

/- ----------------------- Sample spacing ----------------------- -/

/-- Target sample count min(15 * max(1, days), 50). -/
def targetSamples (days : ℕ) : ℕ := min (15 * max 1 days) 50

/-- Sample spacing in meters,
min(40000, max(15000, Math.round(totalM / targetSamples))). -/
def everyMeters (days : ℕ) (totalM : ℚ) : ℤ :=
  min 40000 (max 15000 (round (totalM / (targetSamples days : ℚ))))

/- ----------------------- Detour pricing ----------------------- -/

/-- One directions response as consumed by detourMinutes: provider status
and the duration values of the legs of the first route (a missing duration
contributes 0 through the JavaScript || 0 fallbacks). -/
structure DirResp where
  status : String
  legs : List (Option ℤ)
deriving DecidableEq

/-- Summed leg durations in seconds. -/
def legsSeconds (r : DirResp) : ℤ := (r.legs.map (fun l => l.getD 0)).sum

/-- Source's detourMinutes on the two paired responses: null unless both
statuses are OK, otherwise max(0, Math.round((viaSec - baseSec) / 60)). -/
def detourMinutesOf (base withVia : DirResp) : Option ℤ :=
  if base.status ≠ "OK" ∨ withVia.status ≠ "OK" then none
  else some (max 0 (round (((legsSeconds withVia - legsSeconds base : ℤ) : ℚ) / 60)))

/- ----------------------- Final route assembler ----------------------- -/

/-- Query sent to the directions provider by the final-route handler;
waypoints carries the optimize flag plus the selected place ids when any
were given, and is omitted otherwise. -/
structure DirQuery where
  origin : String
  destination : String
  waypoints : Option (List String)
deriving DecidableEq

/-- Directions response consumed by the final-route handler. -/
structure DirRouteResp where
  status : String
  polyline : Option String
  legsDistance : List (Option ℤ)
  legsDuration : List (Option ℤ)
  waypoint_order : List ℕ
deriving DecidableEq

/-- Reshaped final-route response body. -/
structure FinalRouteBody where
  polyline : Option String
  distance_meters : ℤ
  duration_seconds : ℤ
  waypoint_order : List ℕ
deriving DecidableEq

/-- HTTP outcome of the final-route endpoint. -/
inductive FinalOutcome where
  | success (body : FinalRouteBody)
  | badRequest
  | directionsError (status : String)
deriving DecidableEq

/-- Reshaping step after the outbound call: 400 with the provider status on
a non-OK response, otherwise totals summed over the legs and the waypoint
permutation passed through unchanged. -/
def processDirections (data : DirRouteResp) : FinalOutcome :=
  if data.status ≠ "OK" then .directionsError data.status
  else
    .success
      { polyline := data.polyline
        distance_meters := (data.legsDistance.map (fun l => l.getD 0)).sum
        duration_seconds := (data.legsDuration.map (fun l => l.getD 0)).sum
        waypoint_order := data.waypoint_order }

/-- POST /api/final-route handler: reject a missing or empty origin or
destination (JavaScript falsiness), then issue the single outbound
directions call, attaching waypoints only when the selection is non-empty. -/
def finalRouteHandler (dirO : DirQuery → DirRouteResp)
    (origin destination : Option String) (selectedPlaceIds : List String) : FinalOutcome :=
  if origin = none ∨ origin = some "" ∨ destination = none ∨ destination = some "" then
    .badRequest
  else
    processDirections
      (dirO
        ⟨origin.getD "", destination.getD "",
          if selectedPlaceIds.length ≠ 0 then some selectedPlaceIds else none⟩)

/- ----------------------- Theorems ----------------------- -/

/-- C3: for every days at least 1 and every positive total route length,
the computed sample spacing equals
clamp(round(totalLength / targetSamples), 15000, 40000) with
targetSamples = min(15 * max(1, days), 50), and therefore always lies in
the interval [15000, 40000] meters. -/
theorem everyMeters_clamped (days : ℕ) (totalM : ℚ) (h1 : 1 ≤ days) (h2 : 0 < totalM) :
    everyMeters days totalM =
      max 15000 (min 40000 (round (totalM / ((min (15 * max 1 days) 50 : ℕ) : ℚ)))) ∧
    15000 ≤ everyMeters days totalM ∧ everyMeters days totalM ≤ 40000 := by
  unfold everyMeters targetSamples
  generalize round (totalM / ((min (15 * max 1 days) 50 : ℕ) : ℚ)) = x
  omega

/-- Witness for everyMeters_clamped at days = 2 and totalM = 1000000. -/
theorem everyMeters_clamped_witness :
    everyMeters 2 1000000 =
      max 15000 (min 40000 (round ((1000000 : ℚ) / ((min (15 * max 1 2) 50 : ℕ) : ℚ)))) ∧
    15000 ≤ everyMeters 2 1000000 ∧ everyMeters 2 1000000 ≤ 40000 :=
  everyMeters_clamped 2 1000000 (by norm_num) (by norm_num)

/-- C8: when both paired routing calls succeed the recorded detour equals
max(0, round((viaSeconds - baseSeconds) / 60)), hence is never negative;
when either call reports a non-OK status the detour is recorded as absent. -/
theorem detourMinutes_clamped_or_absent (base withVia : DirResp) :
    (base.status = "OK" ∧ withVia.status = "OK" →
      detourMinutesOf base withVia =
        some (max 0 (round (((legsSeconds withVia - legsSeconds base : ℤ) : ℚ) / 60))) ∧
      ∀ d, detourMinutesOf base withVia = some d → 0 ≤ d) ∧
    (¬(base.status = "OK" ∧ withVia.status = "OK") →
      detourMinutesOf base withVia = none) := by
  unfold detourMinutesOf
  constructor
  · rintro ⟨hb, hv⟩
    rw [if_neg (by simp [hb, hv])]
    refine ⟨rfl, fun d hd => ?_⟩
    simp only [Option.some.injEq] at hd
    exact hd ▸ le_max_left 0 _
  · intro h
    rw [if_pos (by tauto)]

/-- Witness for detourMinutes_clamped_or_absent: a succeeding pair with
durations 600 and 780 seconds prices the detour at 3 minutes, and a failed
base call records the detour as absent. -/
theorem detourMinutes_clamped_or_absent_witness :
    detourMinutesOf ⟨"OK", [some 600]⟩ ⟨"OK", [some 780]⟩ = some 3 ∧
    detourMinutesOf ⟨"NOT_FOUND", []⟩ ⟨"OK", []⟩ = none := by
  have h1 := (detourMinutes_clamped_or_absent ⟨"OK", [some 600]⟩ ⟨"OK", [some 780]⟩).1 ⟨rfl, rfl⟩
  have h2 := (detourMinutes_clamped_or_absent ⟨"NOT_FOUND", []⟩ ⟨"OK", []⟩).2 (by simp)
  refine ⟨?_, h2⟩
  rw [h1.1]
  norm_num [legsSeconds, round_eq]

/-- C10: in the re-rank comparator, a candidate whose detourMinutes is
absent receives a detour penalty of zero and is scored exactly as if its
detour were 0 minutes, while a present detour of d minutes contributes a
penalty of 0.5 * d. -/
theorem rerank_absent_detour_penalty_zero (p q : Place) (d : ℤ)
    (hp : p.detourMinutes = none) (hq : q.detourMinutes = some d) :
    penalty p = 0 ∧ score p = score { p with detourMinutes := some 0 } ∧
    penalty q = 0.5 * (d : ℝ) ∧ score q = quality q - 0.5 * (d : ℝ) := by
  refine ⟨?_, ?_, ?_, ?_⟩ <;> simp [score, penalty, quality, hp, hq] <;> ring

/-- Witness for rerank_absent_detour_penalty_zero at two concrete
candidates, one without a detour and one with a 6 minute detour. -/
theorem rerank_absent_detour_penalty_zero_witness :
    penalty ⟨1, some 4, 10, some ⟨0, 0⟩, none⟩ = 0 ∧
    score ⟨1, some 4, 10, some ⟨0, 0⟩, none⟩ =
      score { (⟨1, some 4, 10, some ⟨0, 0⟩, none⟩ : Place) with detourMinutes := some 0 } ∧
    penalty ⟨2, some 4, 10, some ⟨0, 0⟩, some 6⟩ = 0.5 * ((6 : ℤ) : ℝ) ∧
    score ⟨2, some 4, 10, some ⟨0, 0⟩, some 6⟩ =
      quality ⟨2, some 4, 10, some ⟨0, 0⟩, some 6⟩ - 0.5 * ((6 : ℤ) : ℝ) :=
  rerank_absent_detour_penalty_zero
    ⟨1, some 4, 10, some ⟨0, 0⟩, none⟩ ⟨2, some 4, 10, some ⟨0, 0⟩, some 6⟩ 6 rfl rfl

/-- C2: the source's re-rank step does not order a theme's final list
descending by the composite score.  The comparator (qb - pb) - (qa - pa)
already sorts descending, and the subsequent reverse() flips the list to
ascending, contradicting the source's own comment that places the higher
score first: on two candidates with scores 0 and -5, the lower-scored one
comes out first. -/
theorem rerank_puts_lowest_score_first :
    rerankList
        [⟨1, some 5, 0, some ⟨0, 0⟩, some 0⟩, ⟨2, some 5, 0, some ⟨0, 0⟩, some 10⟩] =
      [⟨2, some 5, 0, some ⟨0, 0⟩, some 10⟩, ⟨1, some 5, 0, some ⟨0, 0⟩, some 0⟩] ∧
    score ⟨2, some 5, 0, some ⟨0, 0⟩, some 10⟩ <
      score ⟨1, some 5, 0, some ⟨0, 0⟩, some 0⟩ := by
  have hs1 : score (⟨1, some 5, 0, some ⟨0, 0⟩, some 0⟩ : Place) = 0 := by
    simp [score, quality, penalty, log1p]
  have hs2 : score (⟨2, some 5, 0, some ⟨0, 0⟩, some 10⟩ : Place) = -5 := by
    simp [score, quality, penalty, log1p]
    norm_num
  have hcmp :
      rerankCmp (⟨1, some 5, 0, some ⟨0, 0⟩, some 0⟩ : Place)
        ⟨2, some 5, 0, some ⟨0, 0⟩, some 10⟩ ≤ 0 := by
    rw [rerankCmp, hs1, hs2]; norm_num
  constructor
  · unfold rerankList sortCmp
    simp only [List.foldl, insertCmp, if_pos hcmp, List.reverse]
    simp
  · rw [hs1, hs2]; norm_num

/-- C9: a final-route request with an empty selection is not rejected as
malformed: with a valid origin and destination the handler issues the
outbound directions call (with no waypoints) and returns the assembled
route built from the provider's response. -/
theorem finalRoute_empty_selection_calls_provider (dirO : DirQuery → DirRouteResp)
    (o d : String) (ids : List String) (ho : o ≠ "") (hd : d ≠ "") :
    finalRouteHandler dirO (some o) (some d) [] = processDirections (dirO ⟨o, d, none⟩) ∧
    finalRouteHandler dirO none (some d) ids = .badRequest ∧
    finalRouteHandler dirO (some o) none ids = .badRequest := by
  unfold finalRouteHandler
  refine ⟨?_, ?_, ?_⟩
  · rw [if_neg (by simp [ho, hd])]
    simp
  · rw [if_pos (by simp)]
  · rw [if_pos (by simp)]

/-- Witness for finalRoute_empty_selection_calls_provider at a concrete
provider oracle and request. -/
theorem finalRoute_empty_selection_calls_provider_witness :
    finalRouteHandler (fun _ => ⟨"OK", some "abc", [some 5000], [some 600], []⟩)
        (some "A") (some "B") [] =
      processDirections
        ((fun _ => ⟨"OK", some "abc", [some 5000], [some 600], []⟩) (⟨"A", "B", none⟩ : DirQuery)) ∧
    finalRouteHandler (fun _ => ⟨"OK", some "abc", [some 5000], [some 600], []⟩)
        none (some "B") ["x"] = .badRequest ∧
    finalRouteHandler (fun _ => ⟨"OK", some "abc", [some 5000], [some 600], []⟩)
        (some "A") none ["x"] = .badRequest :=
  finalRoute_empty_selection_calls_provider
    (fun _ => ⟨"OK", some "abc", [some 5000], [some 600], []⟩) "A" "B" ["x"]
    (by decide) (by decide)

/-- C9 counterexample: on an empty selection with valid origin and
destination the handler answers with a success body assembled from the
routing provider's response, rather than rejecting the request as
malformed before any outbound call. -/
theorem finalRoute_empty_selection_succeeds :
    finalRouteHandler (fun _ => ⟨"OK", some "abc", [some 5000], [some 600], []⟩)
        (some "A") (some "B") [] =
      .success ⟨some "abc", 5000, 600, []⟩ := by
  decide

/-- Helper: the haversine distance is never negative. -/
theorem haversineMeters_nonneg (a b : Coordinate) : 0 ≤ haversineMeters a b := by
  simp only [haversineMeters]
  exact mul_nonneg (by norm_num) (Real.arcsin_nonneg.mpr (Real.sqrt_nonneg _))

/-- Helper: the haversine distance from a point to itself is zero. -/
theorem haversineMeters_self (a : Coordinate) : haversineMeters a a = 0 := by
  simp [haversineMeters, toRad]

/-- Helper: a path's total length is never negative. -/
theorem pathLength_nonneg : ∀ l : List Coordinate, 0 ≤ pathLength l
  | [] => by simp [pathLength]
  | [_] => by simp [pathLength]
  | a :: b :: rest => by
    rw [pathLength]
    exact add_nonneg (haversineMeters_nonneg a b) (pathLength_nonneg (b :: rest))

/-- Helper: every point emitted by the samplePath loop is one of the
vertices it walked over. -/
theorem samplePathAux_mem (e : ℝ) :
    ∀ (rest : List Coordinate) (prev : Coordinate) (acc : ℝ) (x : Coordinate),
      x ∈ samplePathAux e prev rest acc → x ∈ rest
  | [], _, _, _ => by simp [samplePathAux]
  | p :: rest, prev, acc, x => by
    rw [samplePathAux]
    split_ifs with h
    · intro hx
      rcases List.mem_cons.mp hx with h1 | h2
      · exact h1 ▸ List.mem_cons_self p rest
      · exact List.mem_cons_of_mem p (samplePathAux_mem e rest p 0 x h2)
    · intro hx
      exact List.mem_cons_of_mem p (samplePathAux_mem e rest p _ x hx)

/-- Helper: when the accumulated length through the end of the walk stays
below the interval, the loop emits nothing. -/
theorem samplePathAux_eq_nil (e : ℝ) :
    ∀ (rest : List Coordinate) (prev : Coordinate) (acc : ℝ),
      0 ≤ acc → acc + pathLength (prev :: rest) < e → samplePathAux e prev rest acc = []
  | [], _, _, _, _ => by simp [samplePathAux]
  | p :: rest, prev, acc, h0, hlt => by
    have hpl : 0 ≤ pathLength (p :: rest) := pathLength_nonneg (p :: rest)
    have hseg : pathLength (prev :: p :: rest) =
        haversineMeters prev p + pathLength (p :: rest) := rfl
    rw [hseg] at hlt
    rw [samplePathAux]
    rw [if_neg (by linarith)]
    exact samplePathAux_eq_nil e rest p (acc + haversineMeters prev p)
      (add_nonneg h0 (haversineMeters_nonneg prev p)) (by linarith)

/-- C4: for every non-empty path and positive interval, samplePath returns
a non-empty sequence of vertices of the input path; and when the path's
accumulated length never reaches one interval it returns exactly the single
vertex at the path's floored midpoint index. -/
theorem samplePath_spec (path : List Coordinate) (e : ℝ) (h1 : path ≠ []) (h2 : 0 < e) :
    samplePath path e ≠ [] ∧ (∀ x ∈ samplePath path e, x ∈ path) ∧
    (pathLength path < e →
      samplePath path e = [path.getD (path.length / 2) ⟨0, 0⟩]) := by
  obtain ⟨p, rest, rfl⟩ : ∃ p rest, path = p :: rest := by
    cases path with
    | nil => exact absurd rfl h1
    | cons p rest => exact ⟨p, rest, rfl⟩
  have hmidlt : (rest.length + 1) / 2 < (p :: rest).length := by
    simp only [List.length_cons]; omega
  have hgetD : (p :: rest).getD ((rest.length + 1) / 2) p =
      (p :: rest).getD ((rest.length + 1) / 2) ⟨0, 0⟩ := by
    rw [List.getD_eq_getElem _ _ hmidlt, List.getD_eq_getElem _ _ hmidlt]
  by_cases hout : (samplePathAux e p rest 0).isEmpty
  · have hres : samplePath (p :: rest) e = [(p :: rest).getD ((rest.length + 1) / 2) p] := by
      simp only [samplePath, hout, if_pos]
    refine ⟨by simp [hres], ?_, ?_⟩
    · intro x hx
      rw [hres] at hx
      rcases List.mem_singleton.mp hx with rfl
      rw [List.getD_eq_getElem _ _ hmidlt]
      exact List.getElem_mem hmidlt
    · intro _
      rw [hres, hgetD]
      simp [List.length_cons]
  · have hres : samplePath (p :: rest) e = samplePathAux e p rest 0 := by
      simp only [samplePath, hout, if_neg]
      simp [List.isEmpty_eq_false_iff_exists_mem] at hout ⊢
    refine ⟨?_, ?_, ?_⟩
    · rw [hres]
      intro hnil
      rw [hnil] at hout
      simp at hout
    · intro x hx
      rw [hres] at hx
      exact List.mem_cons_of_mem p (samplePathAux_mem e rest p 0 x hx)
    · intro hshort
      exfalso
      have := samplePathAux_eq_nil e rest p 0 le_rfl (by simpa using hshort)
      rw [this] at hout
      simp at hout

/-- Witness for samplePath_spec on the two-vertex path of identical points
with interval 1, which also satisfies the short-path premise. -/
theorem samplePath_spec_witness :
    (samplePath [⟨0, 0⟩, ⟨0, 0⟩] 1 ≠ [] ∧
      (∀ x ∈ samplePath [⟨0, 0⟩, ⟨0, 0⟩] 1, x ∈ ([⟨0, 0⟩, ⟨0, 0⟩] : List Coordinate)) ∧
      (pathLength [⟨0, 0⟩, ⟨0, 0⟩] < 1 →
        samplePath [⟨0, 0⟩, ⟨0, 0⟩] 1 =
          [([⟨0, 0⟩, ⟨0, 0⟩] : List Coordinate).getD
            (([⟨0, 0⟩, ⟨0, 0⟩] : List Coordinate).length / 2) ⟨0, 0⟩])) ∧
    pathLength [⟨0, 0⟩, ⟨0, 0⟩] < 1 := by
  have hlen : pathLength [⟨0, 0⟩, ⟨0, 0⟩] < 1 := by
    have : pathLength [⟨0, 0⟩, ⟨0, 0⟩] =
        haversineMeters ⟨0, 0⟩ ⟨0, 0⟩ + pathLength [⟨0, 0⟩] := rfl
    rw [this, haversineMeters_self]
    simp [pathLength]
  exact ⟨samplePath_spec [⟨0, 0⟩, ⟨0, 0⟩] 1 (by simp) (by norm_num), hlen⟩

/-- C6 counterexample: on the truncated encoded polyline consisting of the
single continuation character 97 the decoder does not fail; it returns the
one-point path at latitude 1e-5, longitude 0. -/
theorem decodePolyline_truncated_returns_path :
    decodePolyline [97] = [⟨1 / 100000, 0⟩] ∧ decodePolyline [97] ≠ [] := by
  have h : decodePolyline [97] = [⟨1 / 100000, 0⟩] := by
    show decodeAux [97] 0 0 none 0 0 = _
    rw [decodeAux, if_pos (by norm_num), decodeAux, if_neg (by norm_num)]
    dsimp only
    rw [show (0 : ℤ) +
        unzig (0 ||| ((((97 : ℕ) : ℤ) - 63).emod 32).toNat * 2 ^ (0 % 32) % 2 ^ 32) = 1
      from by decide]
    norm_num
  exact ⟨h, by rw [h]; simp⟩

/-- C6 amended: decodePolyline does not detect truncation.  On an input
consisting of one continuation character (so the final delta group is
incomplete), the out-of-range read terminates the group with the bits read
so far and the missing longitude group decodes to delta 0, yielding a
one-point path instead of an error. -/
theorem decodePolyline_truncated_group (c : ℕ) (hc : 95 ≤ c) :
    decodePolyline [c] =
      [⟨((unzig ((((c : ℤ) - 63).emod 32).toNat) : ℤ) : ℚ) / 100000, 0⟩] := by
  have hlt : (((c : ℤ) - 63).emod 32).toNat < 2 ^ 32 := by
    have h2 : ((c : ℤ) - 63).emod 32 < 32 := Int.emod_lt_of_pos _ (by norm_num)
    have h3 : (2 : ℕ) ^ 32 = 4294967296 := by norm_num
    omega
  show decodeAux [c] 0 0 none 0 0 = _
  rw [decodeAux, if_pos hc, decodeAux, if_neg (by norm_num)]
  dsimp only
  simp only [Nat.zero_mod, pow_zero, mul_one, Nat.zero_or, Nat.mod_eq_of_lt hlt, zero_add]
  norm_num

/-- Witness for decodePolyline_truncated_group at the continuation
character 97. -/
theorem decodePolyline_truncated_group_witness :
    decodePolyline [97] =
      [⟨((unzig (((((97 : ℕ) : ℤ)) - 63).emod 32).toNat : ℤ) : ℚ) / 100000, 0⟩] :=
  decodePolyline_truncated_group 97 (by norm_num)

/-- Helper: with the low s bits already holding r, or-ing in m shifted up
by s is plain addition. -/
theorem lor_add_of_lt : ∀ (s r m : ℕ), r < 2 ^ s → r ||| (m * 2 ^ s) = r + m * 2 ^ s := by
  intro s
  induction s with
  | zero =>
    intro r m h
    interval_cases r
    simp
  | succ s ih =>
    intro r m h
    have hm : m * 2 ^ (s + 1) = Nat.bit false (m * 2 ^ s) := by
      rw [Nat.bit_val]
      rw [pow_succ]
      ring_nf
      simp [Bool.toNat]
    have hr := Nat.bit_decomp r
    have hdiv : Nat.div2 r < 2 ^ s := by
      rw [Nat.div2_val]
      omega
    have hb := Nat.bodd_add_div2 r
    calc r ||| m * 2 ^ (s + 1)
        = Nat.bit (Nat.bodd r) (Nat.div2 r) ||| Nat.bit false (m * 2 ^ s) := by rw [hr, hm]
      _ = Nat.bit (Nat.bodd r || false) (Nat.div2 r ||| m * 2 ^ s) := Nat.lor_bit _ _ _ _
      _ = Nat.bit (Nat.bodd r) (Nat.div2 r + m * 2 ^ s) := by rw [Bool.or_false, ih _ _ hdiv]
      _ = r + m * 2 ^ (s + 1) := by
          have hk : m * 2 ^ (s + 1) = 2 * (m * 2 ^ s) := by rw [pow_succ]; ring
          rw [Nat.bit_val, hk]
          generalize m * 2 ^ s = k
          cases hbo : Nat.bodd r <;> simp [hbo] at hb ⊢ <;> omega


/-- Helper: the zig-zag value of a bounded delta fits in 31 bits, so the
decoder's signed reinterpretation is the identity on it. -/
theorem zigzag_lt (d : ℤ) (hd : d.natAbs < 2 ^ 30) : zigzag d < 2 ^ 31 := by
  unfold zigzag
  split_ifs <;> omega


/-- Helper: unzig inverts zigzag on deltas bounded by 2^30. -/
theorem unzig_zigzag (d : ℤ) (hd : d.natAbs < 2 ^ 30) : unzig (zigzag d) = d := by
  have hfd : ∀ n : ℕ, Int.fdiv (n : ℤ) 2 = ((n / 2 : ℕ) : ℤ) := fun n => (Int.ofNat_fdiv n 2).symm
  have hvlt := zigzag_lt d hd
  unfold unzig
  dsimp only
  rw [if_pos hvlt, hfd]
  unfold zigzag
  by_cases h : 0 ≤ d
  · rw [if_pos h, if_neg (by omega)]
    omega
  · rw [if_neg h, if_pos (by omega)]
    omega


/-- Helper: consuming one encoded group advances the decoder state machine
by exactly that group's value: the group's 5-bit chunks accumulate into the
in-progress result and the machine continues behind the group. -/
theorem decodeAux_encodeVal :
    ∀ (z s r : ℕ) (rest : List ℕ) (pending : Option ℤ) (lat lng : ℤ),
      r < 2 ^ s → z * 2 ^ s < 2 ^ 31 → s < 32 →
      decodeAux (encodeVal z ++ rest) s r pending lat lng =
        (match pending with
          | none => decodeAux rest 0 0 (some (unzig (r + z * 2 ^ s))) lat lng
          | some dlat =>
            ⟨((lat + dlat : ℤ) : ℚ) / 100000,
                ((lng + unzig (r + z * 2 ^ s) : ℤ) : ℚ) / 100000⟩ ::
              decodeAux rest 0 0 none (lat + dlat) (lng + unzig (r + z * 2 ^ s))) := by
  intro z
  induction z using Nat.strong_induction_on with
  | _ z ih =>
    intro s r rest pending lat lng hr hz hs
    rw [encodeVal]
    by_cases h32 : z < 32
    · have hchunk : ((((z + 63 : ℕ) : ℤ) - 63).emod 32).toNat = z := by
        show ((((z + 63 : ℕ) : ℤ) - 63) % 32).toNat = z
        push_cast
        omega
      have hsmod : s % 32 = s := Nat.mod_eq_of_lt hs
      have hzlt : z * 2 ^ s < 2 ^ 32 := lt_trans hz (by norm_num)
      have hc : ¬ 95 ≤ z + 63 := by omega
      cases pending with
      | none =>
        rw [dif_pos h32, List.singleton_append, decodeAux.eq_3, if_neg hc, hchunk, hsmod,
          Nat.mod_eq_of_lt hzlt, lor_add_of_lt s r z hr]
      | some dlat =>
        rw [dif_pos h32, List.singleton_append, decodeAux.eq_4, if_neg hc, hchunk, hsmod,
          Nat.mod_eq_of_lt hzlt, lor_add_of_lt s r z hr]
    · have hchunk : ((((95 + z % 32 : ℕ) : ℤ) - 63).emod 32).toNat = z % 32 := by
        show ((((95 + z % 32 : ℕ) : ℤ) - 63) % 32).toNat = z % 32
        push_cast
        omega
      have hc : 95 ≤ 95 + z % 32 := by omega
      have hs5 : s + 5 < 32 := by
        have h1 : (2 : ℕ) ^ 5 * 2 ^ s ≤ z * 2 ^ s := Nat.mul_le_mul_right _ (by omega)
        have h2 : (2 : ℕ) ^ 5 * 2 ^ s = 2 ^ (5 + s) := by rw [← pow_add]
        have h3 : (2 : ℕ) ^ (5 + s) < 2 ^ 31 := by omega
        have h4 : 5 + s < 31 := (Nat.pow_lt_pow_iff_right (by norm_num)).mp h3
        omega
      have h32e : (32 : ℕ) * 2 ^ s = 2 ^ (s + 5) := by rw [pow_add]; ring
      have hr2 : r + (z % 32) * 2 ^ s < 2 ^ (s + 5) := by
        have hm31 : z % 32 * 2 ^ s ≤ 31 * 2 ^ s := Nat.mul_le_mul_right _ (by omega)
        have hp : 0 < (2 : ℕ) ^ s := Nat.pos_pow_of_pos s (by norm_num)
        omega
      have hz2 : (z / 32) * 2 ^ (s + 5) < 2 ^ 31 := by
        have hle : (z / 32) * 2 ^ (s + 5) ≤ z * 2 ^ s := by
          calc (z / 32) * 2 ^ (s + 5) = (z / 32) * 32 * 2 ^ s := by rw [← h32e]; ring
            _ ≤ z * 2 ^ s := Nat.mul_le_mul_right _ (by omega)
        omega
      have hsmod : s % 32 = s := Nat.mod_eq_of_lt hs
      have hzm : (z % 32) * 2 ^ s < 2 ^ 32 := by
        have hb : (2 : ℕ) ^ (s + 5) ≤ 2 ^ 32 := Nat.pow_le_pow_right (by norm_num) (by omega)
        omega
      have hval : r + z % 32 * 2 ^ s + z / 32 * 2 ^ (s + 5) = r + z * 2 ^ s := by
        have hdm := Nat.div_add_mod z 32
        calc r + z % 32 * 2 ^ s + z / 32 * 2 ^ (s + 5)
            = r + (32 * (z / 32) + z % 32) * 2 ^ s := by rw [← h32e]; ring
          _ = r + z * 2 ^ s := by rw [hdm]
      cases pending with
      | none =>
        rw [dif_neg h32, List.cons_append, decodeAux.eq_3, if_pos hc, hchunk, hsmod,
          Nat.mod_eq_of_lt hzm, lor_add_of_lt s r (z % 32) hr,
          ih (z / 32) (by omega) (s + 5) (r + z % 32 * 2 ^ s) rest none lat lng hr2 hz2 hs5,
          hval]
      | some dlat =>
        rw [dif_neg h32, List.cons_append, decodeAux.eq_4, if_pos hc, hchunk, hsmod,
          Nat.mod_eq_of_lt hzm, lor_add_of_lt s r (z % 32) hr,
          ih (z / 32) (by omega) (s + 5) (r + z % 32 * 2 ^ s) rest (some dlat) lat lng hr2 hz2 hs5,
          hval]


/-- Helper: decoding the encoded delta stream starting from any in-range
previous point reproduces the scaled points. -/
theorem decode_encodeDeltas :
    ∀ (pts : List (ℤ × ℤ)) (prevLat prevLng : ℤ),
      (∀ p ∈ pts, p.1.natAbs ≤ 9000000 ∧ p.2.natAbs ≤ 18000000) →
      prevLat.natAbs ≤ 9000000 → prevLng.natAbs ≤ 18000000 →
      decodeAux (encodeDeltas prevLat prevLng pts) 0 0 none prevLat prevLng =
        pts.map (fun p => ⟨((p.1 : ℤ) : ℚ) / 100000, ((p.2 : ℤ) : ℚ) / 100000⟩)
  | [], prevLat, prevLng, _, _, _ => by
    simp [encodeDeltas, decodeAux]
  | (la, ln) :: rest, prevLat, prevLng, hb, hla, hln => by
    obtain ⟨hla2, hln2⟩ := hb (la, ln) (List.mem_cons_self _ _)
    have hd1 : (la - prevLat).natAbs < 2 ^ 30 := by omega
    have hd2 : (ln - prevLng).natAbs < 2 ^ 30 := by omega
    have hz1 : zigzag (la - prevLat) * 2 ^ 0 < 2 ^ 31 := by
      have := zigzag_lt _ hd1
      simpa using this
    have hz2 : zigzag (ln - prevLng) * 2 ^ 0 < 2 ^ 31 := by
      have := zigzag_lt _ hd2
      simpa using this
    rw [encodeDeltas, List.append_assoc,
      decodeAux_encodeVal (zigzag (la - prevLat)) 0 0 _ none prevLat prevLng
        (by norm_num) hz1 (by norm_num)]
    dsimp only
    simp only [pow_zero, mul_one, zero_add]
    rw [unzig_zigzag _ hd1,
      decodeAux_encodeVal (zigzag (ln - prevLng)) 0 0 _ (some (la - prevLat)) prevLat prevLng
        (by norm_num) hz2 (by norm_num)]
    dsimp only
    simp only [pow_zero, mul_one, zero_add]
    rw [unzig_zigzag _ hd2]
    have e1 : prevLat + (la - prevLat) = la := by ring
    have e2 : prevLng + (ln - prevLng) = ln := by ring
    rw [e1, e2,
      decode_encodeDeltas rest la ln (fun p hp => hb p (List.mem_cons_of_mem _ hp)) hla2 hln2]
    rfl


/-- C5: decodePolyline inverts the test-fixture encoder: for every path of
valid coordinates (1e5-scaled integers within latitude/longitude range),
decoding the encoding yields exactly the path's coordinates. -/
theorem decode_encode_roundtrip (pts : List (ℤ × ℤ))
    (hb : ∀ p ∈ pts, p.1.natAbs ≤ 9000000 ∧ p.2.natAbs ≤ 18000000) :
    decodePolyline (encodePath pts) =
      pts.map (fun p => ⟨((p.1 : ℤ) : ℚ) / 100000, ((p.2 : ℤ) : ℚ) / 100000⟩) := by
  unfold decodePolyline encodePath
  exact decode_encodeDeltas pts 0 0 hb (by simp) (by simp)


/-- Witness for decode_encode_roundtrip on a concrete two-point path. -/
theorem decode_encode_roundtrip_witness :
    decodePolyline (encodePath [((3700000 : ℤ), (-12200000 : ℤ)), (3700100, -12200050)]) =
      [((3700000 : ℤ), (-12200000 : ℤ)), (3700100, -12200050)].map
        (fun p => ⟨((p.1 : ℤ) : ℚ) / 100000, ((p.2 : ℤ) : ℚ) / 100000⟩) :=
  decode_encode_roundtrip _ (by decide)

/-- Helper: every strategy in the theme table carries at least one query
key. -/
theorem THEME_MAP_keys_ne_nil (t : String) (cfg : SearchCfg) (h : THEME_MAP t = some cfg) :
    (∀ types, cfg = .nearby types → types ≠ []) ∧
    (∀ queries, cfg = .text queries → queries ≠ []) := by
  unfold THEME_MAP at h
  split_ifs at h <;>
    (injection h with h2) <;>
    subst h2 <;>
    constructor <;> intro l heq <;>
    first
      | (injection heq with h3
         subst h3
         simp)
      | injection heq

/-- Helper: under a places provider whose every response carries a
non-allow-listed status, the per-sample theme loop throws as soon as it
reaches the first resolvable theme. -/
theorem themesLoop_error_of_fail (o : PlacesOracle) (radius : ℚ) (psc : ℕ) (pt : Coordinate)
    (hfN : ∀ p ty r, (o.nearbyRaw p ty r).status ≠ "" ∧ (o.nearbyRaw p ty r).status ≠ "OK" ∧
      (o.nearbyRaw p ty r).status ≠ "ZERO_RESULTS")
    (hfT : ∀ p q r, (o.textRaw p q r).status ≠ "" ∧ (o.textRaw p q r).status ≠ "OK" ∧
      (o.textRaw p q r).status ≠ "ZERO_RESULTS") :
    ∀ (themes : List String) (cand : CandMap),
      (∃ t ∈ themes, (THEME_MAP t).isSome = true) →
      themesLoop o radius psc pt themes cand = .error ()
  | [], _, ht => by simp at ht
  | t :: ts, cand, ht => by
    cases hmap : THEME_MAP t with
    | some cfg =>
      have hrun : runCfgQueries o pt radius psc cfg = .error () := by
        have hkeys := THEME_MAP_keys_ne_nil t cfg hmap
        cases cfg with
        | nearby types =>
          obtain ⟨ty, tys, rfl⟩ : ∃ a b, types = a :: b := by
            cases types with
            | nil => exact absurd rfl (hkeys.1 [] rfl)
            | cons a b => exact ⟨a, b, rfl⟩
          have hq : placesNearby o pt ty radius = .error () := by
            unfold placesNearby
            rw [if_pos (hfN pt ty radius)]
          unfold runCfgQueries goQueries
          rw [hq]
        | text queries =>
          obtain ⟨q, qs, rfl⟩ : ∃ a b, queries = a :: b := by
            cases queries with
            | nil => exact absurd rfl (hkeys.2 [] rfl)
            | cons a b => exact ⟨a, b, rfl⟩
          have hq : placesTextSearch o pt q ((round (radius * 3 / 2) : ℤ) : ℚ) = .error () := by
            unfold placesTextSearch
            rw [if_pos (hfT pt q _)]
          unfold runCfgQueries goQueries
          rw [hq]
      have hstep : stepPtTheme o radius psc pt cand t = .error () := by
        unfold stepPtTheme
        rw [hmap]
        dsimp only
        rw [hrun]
      unfold themesLoop
      rw [hstep]
    | none =>
      have hstep : stepPtTheme o radius psc pt cand t = .ok cand := by
        unfold stepPtTheme
        rw [hmap]
      unfold themesLoop
      rw [hstep]
      apply themesLoop_error_of_fail o radius psc pt hfN hfT ts cand
      rcases ht with ⟨t2, ht2, hsome⟩
      rcases List.mem_cons.mp ht2 with rfl | hmem
      · rw [hmap] at hsome
        simp at hsome
      · exact ⟨t2, hmem, hsome⟩

/-- C1 amended: a failed places query does not degrade to zero candidates;
the raised error propagates out of the fan-out loops to the handler's catch
block, so the whole discovery request fails with the generic 500 server
error instead of succeeding with the remaining results. -/
theorem discover_places_failure_500 (o : PlacesOracle) (detourO : Place → Option ℤ)
    (samples : List Coordinate) (themes : List String) (radius : ℚ) (psc ptc : ℕ)
    (hfN : ∀ p ty r, (o.nearbyRaw p ty r).status ≠ "" ∧ (o.nearbyRaw p ty r).status ≠ "OK" ∧
      (o.nearbyRaw p ty r).status ≠ "ZERO_RESULTS")
    (hfT : ∀ p q r, (o.textRaw p q r).status ≠ "" ∧ (o.textRaw p q r).status ≠ "OK" ∧
      (o.textRaw p q r).status ≠ "ZERO_RESULTS")
    (hs : samples ≠ []) (ht : ∃ t ∈ themes, (THEME_MAP t).isSome = true) :
    discoverOutcome o detourO samples themes radius psc ptc = .serverError := by
  obtain ⟨pt, pts, rfl⟩ : ∃ pt pts, samples = pt :: pts := by
    cases samples with
    | nil => exact absurd rfl hs
    | cons a b => exact ⟨a, b, rfl⟩
  have hloop :
      discoverLoop o radius psc themes (pt :: pts) (themes.map fun t => (t, [])) =
        .error () := by
    unfold discoverLoop
    rw [themesLoop_error_of_fail o radius psc pt hfN hfT themes _ ht]
  unfold discoverOutcome discoverFromSamples
  rw [hloop]

/-- C1 counterexample: with a places provider that reports
OVER_QUERY_LIMIT for the single sample point and the single theme, the
discovery request does not succeed with the remaining (empty) results; it
answers the generic 500 server error. -/
theorem discover_query_failure_aborts_request :
    discoverOutcome
        ⟨fun _ _ _ => ⟨"OVER_QUERY_LIMIT", []⟩, fun _ _ _ => ⟨"OVER_QUERY_LIMIT", []⟩⟩
        (fun _ => none) [⟨49, -123⟩] ["cafes"] 3000 2 12 = .serverError := by
  rfl

/-- Witness for discover_places_failure_500 at a concrete failing provider,
an unknown first theme (which is skipped) and a resolvable second theme. -/
theorem discover_places_failure_500_witness :
    discoverOutcome
        ⟨fun _ _ _ => ⟨"REQUEST_DENIED", []⟩, fun _ _ _ => ⟨"REQUEST_DENIED", []⟩⟩
        (fun _ => none) [⟨1, 2⟩] ["unknown", "parks"] 500 1 3 = .serverError :=
  discover_places_failure_500
    ⟨fun _ _ _ => ⟨"REQUEST_DENIED", []⟩, fun _ _ _ => ⟨"REQUEST_DENIED", []⟩⟩
    (fun _ => none) [⟨1, 2⟩] ["unknown", "parks"] 500 1 3
    (fun _ _ _ => ⟨by simp, by simp, by simp⟩)
    (fun _ _ _ => ⟨by simp, by simp, by simp⟩)
    (by simp)
    ⟨"parks", by simp, by decide⟩

/-- Helper: stable insertion is a permutation of consing. -/
theorem insertCmp_perm {α β : Type} [LinearOrder β] [Zero β] (cmp : α → α → β) (x : α) :
    ∀ l : List α, List.Perm (insertCmp cmp x l) (x :: l)
  | [] => List.Perm.refl _
  | y :: ys => by
    rw [insertCmp]
    split_ifs with h
    · exact ((insertCmp_perm cmp x ys).cons y).trans (List.Perm.swap x y ys)
    · exact List.Perm.refl _

/-- Helper: the comparator sort's fold permutes the accumulator plus the
remaining input. -/
theorem sortCmp_perm_aux {α β : Type} [LinearOrder β] [Zero β] (cmp : α → α → β) :
    ∀ (l acc : List α),
      List.Perm (List.foldl (fun acc y => insertCmp cmp y acc) acc l) (acc ++ l)
  | [], acc => by simp
  | x :: xs, acc => by
    rw [List.foldl_cons]
    refine (sortCmp_perm_aux cmp xs (insertCmp cmp x acc)).trans ?_
    refine (List.Perm.append_right xs (insertCmp_perm cmp x acc)).trans ?_
    exact List.perm_middle.symm

/-- Helper: the comparator sort is a permutation. -/
theorem sortCmp_perm {α β : Type} [LinearOrder β] [Zero β] (cmp : α → α → β) (l : List α) :
    List.Perm (sortCmp cmp l) l := by
  have h := sortCmp_perm_aux cmp l []
  simpa [sortCmp] using h

/-- Helper: the shortlist invariant (all locations present, provider ids
unique) transfers along permutations. -/
theorem placeInv_of_perm (l l2 : List Place) (hp : List.Perm l2 l)
    (h : (∀ p ∈ l, p.location.isSome = true) ∧ (l.map Place.place_id).Nodup) :
    (∀ p ∈ l2, p.location.isSome = true) ∧ (l2.map Place.place_id).Nodup :=
  ⟨fun p hp2 => h.1 p (hp.mem_iff.mp hp2), ((hp.map Place.place_id).nodup_iff).mpr h.2⟩

/-- Helper: inserting into the dedup map preserves the shortlist
invariant. -/
theorem insertCand_inv (m : List Place) (p : Place)
    (h : (∀ q ∈ m, q.location.isSome = true) ∧ (m.map Place.place_id).Nodup) :
    (∀ q ∈ insertCand m p, q.location.isSome = true) ∧
      ((insertCand m p).map Place.place_id).Nodup := by
  unfold insertCand
  split_ifs with hc
  · refine ⟨?_, ?_⟩
    · intro q hq
      rcases List.mem_append.mp hq with hq | hq
      · exact h.1 q hq
      · rw [List.mem_singleton.mp hq]
        exact hc.1
    · rw [List.map_append, List.nodup_append]
      refine ⟨h.2, by simp, ?_⟩
      intro a ha hb
      simp only [List.map_cons, List.map_nil, List.mem_singleton] at hb
      rcases List.mem_map.mp ha with ⟨q, hq, rfl⟩
      exact hc.2 q hq hb
  · exact h

/-- Helper: the keep-loop preserves the shortlist invariant. -/
theorem foldl_insertCand_inv :
    ∀ (kept m : List Place),
      (∀ q ∈ m, q.location.isSome = true) ∧ (m.map Place.place_id).Nodup →
      (∀ q ∈ kept.foldl insertCand m, q.location.isSome = true) ∧
        ((kept.foldl insertCand m).map Place.place_id).Nodup
  | [], _, h => by simpa using h
  | p :: ps, m, h => by
    rw [List.foldl_cons]
    exact foldl_insertCand_inv ps (insertCand m p) (insertCand_inv m p h)

/-- Helper: one (sample, theme) step preserves the invariant on every
theme entry. -/
theorem stepPtTheme_inv (o : PlacesOracle) (radius : ℚ) (psc : ℕ) (pt : Coordinate)
    (cand cand2 : CandMap) (theme : String)
    (hstep : stepPtTheme o radius psc pt cand theme = .ok cand2)
    (h : ∀ e ∈ cand, (∀ p ∈ e.2, p.location.isSome = true) ∧
      (e.2.map Place.place_id).Nodup) :
    ∀ e ∈ cand2, (∀ p ∈ e.2, p.location.isSome = true) ∧
      (e.2.map Place.place_id).Nodup := by
  unfold stepPtTheme at hstep
  cases hmap : THEME_MAP theme with
  | none =>
    rw [hmap] at hstep
    dsimp only at hstep
    injection hstep with h2
    subst h2
    exact h
  | some cfg =>
    rw [hmap] at hstep
    dsimp only at hstep
    cases hrun : runCfgQueries o pt radius psc cfg with
    | error e =>
      rw [hrun] at hstep
      exact absurd hstep (by simp)
    | ok results =>
      rw [hrun] at hstep
      dsimp only at hstep
      injection hstep with h2
      subst h2
      intro e he
      unfold updateTheme at he
      rcases List.mem_map.mp he with ⟨e0, he0, rfl⟩
      by_cases hth : e0.1 = theme
      · simp only [if_pos hth]
        exact foldl_insertCand_inv _ e0.2 (h e0 he0)
      · simp only [if_neg hth]
        exact h e0 he0

/-- Helper: the theme loop preserves the invariant on every theme entry. -/
theorem themesLoop_inv (o : PlacesOracle) (radius : ℚ) (psc : ℕ) (pt : Coordinate) :
    ∀ (themes : List String) (cand cand2 : CandMap),
      themesLoop o radius psc pt themes cand = .ok cand2 →
      (∀ e ∈ cand, (∀ p ∈ e.2, p.location.isSome = true) ∧
        (e.2.map Place.place_id).Nodup) →
      ∀ e ∈ cand2, (∀ p ∈ e.2, p.location.isSome = true) ∧
        (e.2.map Place.place_id).Nodup
  | [], _, _, heq, h => by
    unfold themesLoop at heq
    injection heq with h2
    subst h2
    exact h
  | t :: ts, cand, cand2, heq, h => by
    unfold themesLoop at heq
    cases hstep : stepPtTheme o radius psc pt cand t with
    | error e =>
      rw [hstep] at heq
      exact absurd heq (by simp)
    | ok cmid =>
      rw [hstep] at heq
      exact themesLoop_inv o radius psc pt ts cmid cand2 heq
        (stepPtTheme_inv o radius psc pt cand cmid t hstep h)

/-- Helper: the sample loop preserves the invariant on every theme entry. -/
theorem discoverLoop_inv (o : PlacesOracle) (radius : ℚ) (psc : ℕ) (themes : List String) :
    ∀ (samples : List Coordinate) (cand cand2 : CandMap),
      discoverLoop o radius psc themes samples cand = .ok cand2 →
      (∀ e ∈ cand, (∀ p ∈ e.2, p.location.isSome = true) ∧
        (e.2.map Place.place_id).Nodup) →
      ∀ e ∈ cand2, (∀ p ∈ e.2, p.location.isSome = true) ∧
        (e.2.map Place.place_id).Nodup
  | [], _, _, heq, h => by
    unfold discoverLoop at heq
    injection heq with h2
    subst h2
    exact h
  | pt :: pts, cand, cand2, heq, h => by
    unfold discoverLoop at heq
    cases hstep : themesLoop o radius psc pt themes cand with
    | error e =>
      rw [hstep] at heq
      exact absurd heq (by simp)
    | ok cmid =>
      rw [hstep] at heq
      exact discoverLoop_inv o radius psc themes pts cmid cand2 heq
        (themesLoop_inv o radius psc pt themes cand cmid hstep h)

/-- C7: in every per-theme shortlist of a successful discovery response,
each candidate has a non-null location and each provider id occurs exactly
once; and the dedup insertion deterministically keeps the first-seen
candidate when a provider id reappears. -/
theorem discover_shortlists_unique_located (o : PlacesOracle) (detourO : Place → Option ℤ)
    (samples : List Coordinate) (themes : List String) (radius : ℚ) (psc ptc : ℕ)
    (sl : CandMap)
    (hok : discoverFromSamples o detourO samples themes radius psc ptc = .ok sl) :
    (∀ e ∈ sl, (∀ p ∈ e.2, p.location.isSome = true) ∧
      (e.2.map Place.place_id).Nodup) ∧
    (∀ (m : List Place) (p : Place), (∃ q ∈ m, q.place_id = p.place_id) →
      insertCand m p = m) := by
  constructor
  · unfold discoverFromSamples at hok
    cases hloop : discoverLoop o radius psc themes samples (themes.map fun t => (t, [])) with
    | error e =>
      rw [hloop] at hok
      exact absurd hok (by simp)
    | ok cand =>
      rw [hloop] at hok
      dsimp only at hok
      injection hok with h2
      subst h2
      have hinit : ∀ e ∈ (themes.map fun t => (t, ([] : List Place))),
          (∀ p ∈ e.2, p.location.isSome = true) ∧ (e.2.map Place.place_id).Nodup := by
        intro e he
        rcases List.mem_map.mp he with ⟨t, _, rfl⟩
        exact ⟨fun p hp => absurd hp (List.not_mem_nil p), List.nodup_nil⟩
      have hcand := discoverLoop_inv o radius psc themes samples _ cand hloop hinit
      intro e he
      unfold rerankAll at he
      rcases List.mem_map.mp he with ⟨e1, he1, rfl⟩
      unfold attachDetours at he1
      rcases List.mem_map.mp he1 with ⟨e2, he2, rfl⟩
      unfold buildShortlists at he2
      rcases List.mem_map.mp he2 with ⟨e3, he3, rfl⟩
      dsimp only
      have h3 := hcand e3 he3
      have hperm := sortCmp_perm ratingCmp e3.2
      have h4 : (∀ p ∈ (sortCmp ratingCmp e3.2).take ptc, p.location.isSome = true) ∧
          (((sortCmp ratingCmp e3.2).take ptc).map Place.place_id).Nodup := by
        constructor
        · intro p hp
          exact h3.1 p (hperm.mem_iff.mp (List.mem_of_mem_take hp))
        · rw [List.map_take]
          exact (((hperm.map Place.place_id).nodup_iff).mpr h3.2).sublist
            (List.take_sublist _ _)
      have h5 : (∀ p ∈ ((sortCmp ratingCmp e3.2).take ptc).map
            (fun p => { p with detourMinutes := detourO p }), p.location.isSome = true) ∧
          ((((sortCmp ratingCmp e3.2).take ptc).map
            (fun p => { p with detourMinutes := detourO p })).map Place.place_id).Nodup := by
        constructor
        · intro p hp
          rcases List.mem_map.mp hp with ⟨q, hq, rfl⟩
          simpa using h4.1 q hq
        · rw [List.map_map]
          have hcomp : (Place.place_id ∘ fun p => { p with detourMinutes := detourO p }) =
              Place.place_id := by
            funext p
            rfl
          rw [hcomp]
          exact h4.2
      unfold rerankList
      exact placeInv_of_perm _ _
        ((List.reverse_perm _).trans (sortCmp_perm rerankCmp _)) h5
  · rintro m p ⟨q, hq, hid⟩
    unfold insertCand
    rw [if_neg]
    rintro ⟨_, hall⟩
    exact hall q hq hid

/-- Witness for discover_shortlists_unique_located on a concrete run: one
sample, theme cafes, one OK result with a location, detour priced at 3
minutes. -/
theorem discover_shortlists_unique_located_witness :
    (∀ e ∈ ([("cafes", [⟨1, some 4, 120, some ⟨1, 2⟩, some 3⟩])] : CandMap),
      (∀ p ∈ e.2, p.location.isSome = true) ∧
        (e.2.map Place.place_id).Nodup) ∧
    (∀ (m : List Place) (p : Place), (∃ q ∈ m, q.place_id = p.place_id) →
      insertCand m p = m) :=
  discover_shortlists_unique_located
    ⟨fun _ ty _ =>
        if ty = "cafe" then ⟨"OK", [⟨1, some 4, some 120, some ⟨1, 2⟩⟩]⟩
        else ⟨"ZERO_RESULTS", []⟩,
      fun _ _ _ => ⟨"ZERO_RESULTS", []⟩⟩
    (fun _ => some 3) [⟨49, -123⟩] ["cafes"] 3000 2 12
    [("cafes", [⟨1, some 4, 120, some ⟨1, 2⟩, some 3⟩])] rfl
